import Mathlib

/-!
Verification of the buildcache caching core against its specification.

The development shallowly embeds the relevant C++ sources:
  - `src/base/hasher.hpp`          (streaming 128-bit digester)
  - `src/wrappers/program_wrapper.cpp` (the wrapper driver, `handle_command`)
  - `src/cache/redis_cache_provider.cpp` (the remote store)
  - `src/base/thread_pool.hpp`     (the general thread pool)
  - `src/base/io_worker.cpp`       (the deferred-close worker)
  - `src/wrappers/msvc_wrapper.cpp` (MSVC wrapper, `preprocess_source`)

The digest algorithm itself (xxHash) is out of scope per the specification
("Hash algorithm internals ... assumed"); the digest is modelled as the exact
stream of tokens fed into it, i.e. as an ideal collision-free digest.
-/

namespace BuildCache

/-! ## The hasher model (src/base/hasher.hpp)

`hasher_t::update(text)` feeds the raw bytes of `text` into the digest state.
A token is either one data byte or the dedicated pair-component separator used
by the key/value-map overload of `update`.  Modelling the separator as a
distinct token captures the spec's requirement that it be unambiguous. -/

inductive HashTok where
  | byte (c : Char)
  | sep
deriving DecidableEq

/-- Model of `hasher_t::update(const std::string&)`: the fed bytes of a string. -/
def feedStr (s : String) : List HashTok :=
  s.toList.map HashTok.byte

/-- Modelled from the spec: `hasher_t::update(const std::map<std::string,
std::string>&)` (only its declaration, hasher.hpp line 95, is among the
sources; the implementation file is absent).  The spec: "feed keys and values
in a fixed traversal order (sorted by key bytes) with an unambiguous separator
between pair components".  The argument is the `std::map` in its iteration
order (strictly ascending keys); every key and value is fed followed by the
separator token. -/
def feedMap (m : List (String × String)) : List HashTok :=
  match m with
  | [] => []
  | kv :: rest => feedStr kv.1 ++ HashTok.sep :: (feedStr kv.2 ++ HashTok.sep :: feedMap rest)

/-- The finalized digest: an ideal (collision-free) 128-bit digest is modelled
by the exact token stream that was fed into it. -/
structure Digest where
  toks : List HashTok
deriving DecidableEq

/-! ## The std::map model

Both producers of relevant-env-var maps (e.g. `msvc_wrapper_t::
get_relevant_env_vars`) build a `std::map<std::string, std::string>` by
repeated `operator[]` assignment.  A `std::map` is modelled as its iteration
sequence: an association list strictly ascending in the key; assignment is
ordered insertion that overwrites an existing key. -/

def minsert (kv : String × String) : List (String × String) → List (String × String)
  | [] => [kv]
  | p :: m =>
    if kv.1 < p.1 then kv :: p :: m
    else if kv.1 = p.1 then kv :: m
    else p :: minsert kv m

/-- Build a `std::map` from the pairs supplied in list order. -/
def mapOfList (l : List (String × String)) : List (String × String) :=
  l.foldl (fun m kv => minsert kv m) []

/-- Strictly-ascending-key predicate: the `std::map` iteration invariant. -/
abbrev KeySorted (m : List (String × String)) : Prop :=
  m.Pairwise (fun p q => p.1 < q.1)

theorem mem_minsert {x kv : String × String} {m : List (String × String)}
    (h : x ∈ minsert kv m) : x = kv ∨ x ∈ m := by
  induction m with
  | nil => simpa [minsert] using h
  | cons p m ih =>
    by_cases h1 : kv.1 < p.1
    · simpa [minsert, h1] using h
    · by_cases h2 : kv.1 = p.1
      · simp [minsert, h1, h2] at h
        rcases h with h | h
        · exact Or.inl h
        · exact Or.inr (List.mem_cons_of_mem _ h)
      · simp [minsert, h1, h2] at h
        rcases h with rfl | h
        · exact Or.inr (List.mem_cons_self _ _)
        · rcases ih h with h' | h'
          · exact Or.inl h'
          · exact Or.inr (List.mem_cons_of_mem _ h')

theorem keySorted_minsert {kv : String × String} {m : List (String × String)}
    (hs : KeySorted m) : KeySorted (minsert kv m) := by
  induction m with
  | nil => simp [minsert, KeySorted]
  | cons p m ih =>
    rcases List.pairwise_cons.mp hs with ⟨hp, hm⟩
    by_cases h1 : kv.1 < p.1
    · simp only [minsert, if_pos h1]
      refine List.pairwise_cons.mpr ⟨?_, hs⟩
      intro q hq
      rcases List.mem_cons.mp hq with rfl | hq
      · exact h1
      · exact lt_trans h1 (hp q hq)
    · by_cases h2 : kv.1 = p.1
      · simp only [minsert, if_neg h1, if_pos h2]
        refine List.pairwise_cons.mpr ⟨?_, hm⟩
        intro q hq
        rw [h2]
        exact hp q hq
      · have hlt : p.1 < kv.1 := by
          rcases lt_trichotomy kv.1 p.1 with h | h | h
          · exact absurd h h1
          · exact absurd h h2
          · exact h
        simp only [minsert, if_neg h1, if_neg h2]
        refine List.pairwise_cons.mpr ⟨?_, ih hm⟩
        intro q hq
        rcases mem_minsert hq with rfl | hq
        · exact hlt
        · exact hp q hq

theorem minsert_perm {kv : String × String} {m : List (String × String)}
    (h : kv.1 ∉ m.map Prod.fst) : (minsert kv m).Perm (kv :: m) := by
  induction m with
  | nil => simp [minsert]
  | cons p m ih =>
    simp only [List.map_cons, List.mem_cons] at h
    push_neg at h
    by_cases h1 : kv.1 < p.1
    · simp [minsert, h1]
    · by_cases h2 : kv.1 = p.1
      · exact absurd h2 h.1
      · simp only [minsert, if_neg h1, if_neg h2]
        exact ((ih h.2).cons p).trans (List.Perm.swap kv p m)

theorem mapOfList_go_spec (l : List (String × String)) :
    ∀ m : List (String × String), KeySorted m →
      (l.map Prod.fst ++ m.map Prod.fst).Nodup →
      KeySorted (l.foldl (fun m kv => minsert kv m) m) ∧
      (l.foldl (fun m kv => minsert kv m) m).Perm (m ++ l) := by
  induction l with
  | nil => intro m hs _; simpa using hs
  | cons kv rest ih =>
    intro m hs hnd
    rw [List.map_cons, List.cons_append, List.nodup_cons] at hnd
    have hkvnot : kv.1 ∉ rest.map Prod.fst ++ m.map Prod.fst := hnd.1
    have hnotm : kv.1 ∉ m.map Prod.fst := fun hc =>
      hkvnot (List.mem_append.mpr (Or.inr hc))
    have hperm1 : (minsert kv m).Perm (kv :: m) := minsert_perm hnotm
    have hs' : KeySorted (minsert kv m) := keySorted_minsert hs
    have hnd' : (rest.map Prod.fst ++ (minsert kv m).map Prod.fst).Nodup := by
      have hkeys : ((minsert kv m).map Prod.fst).Perm (kv.1 :: m.map Prod.fst) := by
        simpa using hperm1.map Prod.fst
      have h2 : (rest.map Prod.fst ++ (kv.1 :: m.map Prod.fst)).Nodup := by
        have h1 : (kv.1 :: (rest.map Prod.fst ++ m.map Prod.fst)).Nodup :=
          List.nodup_cons.mpr ⟨hkvnot, hnd.2⟩
        exact (List.perm_middle.symm).nodup h1
      exact (((hkeys.symm).append_left (rest.map Prod.fst)).nodup h2)
    rcases ih (minsert kv m) hs' hnd' with ⟨hsort, hperm⟩
    refine ⟨hsort, ?_⟩
    refine hperm.trans ((hperm1.append_right rest).trans ?_)
    simpa using (List.perm_middle : List.Perm (m ++ kv :: rest) (kv :: (m ++ rest))).symm

theorem keySorted_mapOfList {l : List (String × String)}
    (h : (l.map Prod.fst).Nodup) : KeySorted (mapOfList l) := by
  have := mapOfList_go_spec l [] (by simp [KeySorted]) (by simpa using h)
  simpa [mapOfList] using this.1

theorem mapOfList_perm {l : List (String × String)}
    (h : (l.map Prod.fst).Nodup) : (mapOfList l).Perm l := by
  have := mapOfList_go_spec l [] (by simp [KeySorted]) (by simpa using h)
  simpa [mapOfList] using this.2

theorem keySorted_eq_of_perm {m₁ m₂ : List (String × String)}
    (hp : m₁.Perm m₂) (h₁ : KeySorted m₁) (h₂ : KeySorted m₂) : m₁ = m₂ := by
  haveI : IsAntisymm (String × String) (fun p q => p.1 < q.1) :=
    ⟨fun _ _ hab hba => absurd hba (lt_asymm hab)⟩
  exact List.eq_of_perm_of_sorted hp h₁ h₂

/-- Maps built from the same pairs supplied in any order are the same map. -/
theorem mapOfList_perm_invariant {l₁ l₂ : List (String × String)}
    (hnd : (l₁.map Prod.fst).Nodup) (hp : l₁.Perm l₂) :
    mapOfList l₁ = mapOfList l₂ := by
  have hnd₂ : (l₂.map Prod.fst).Nodup := (hp.map Prod.fst).nodup hnd
  exact keySorted_eq_of_perm
    ((mapOfList_perm hnd).trans (hp.trans (mapOfList_perm hnd₂).symm))
    (keySorted_mapOfList hnd) (keySorted_mapOfList hnd₂)

/-! ### Unambiguity of the key/value feed -/

theorem sep_not_mem_feedStr (s : String) : HashTok.sep ∉ feedStr s := by
  intro h
  rcases List.mem_map.mp h with ⟨c, _, hc⟩
  exact HashTok.noConfusion hc

theorem feedStr_injective {s₁ s₂ : String} (h : feedStr s₁ = feedStr s₂) :
    s₁ = s₂ := by
  have hl : s₁.toList = s₂.toList := by
    have hmap : ∀ l₁ l₂ : List Char, l₁.map HashTok.byte = l₂.map HashTok.byte → l₁ = l₂ := by
      intro l₁
      induction l₁ with
      | nil => intro l₂ h; cases l₂ <;> simp_all
      | cons c l₁ ih =>
        intro l₂ h
        cases l₂ with
        | nil => simp at h
        | cons d l₂ =>
          simp only [List.map_cons, List.cons.injEq, HashTok.byte.injEq] at h
          rw [h.1, ih _ h.2]
    exact hmap _ _ h
  cases s₁; cases s₂
  simp only [String.toList] at hl
  rw [hl]

theorem append_sep_inj {a b x y : List HashTok}
    (ha : HashTok.sep ∉ a) (hb : HashTok.sep ∉ b)
    (h : a ++ HashTok.sep :: x = b ++ HashTok.sep :: y) : a = b ∧ x = y := by
  induction a generalizing b with
  | nil =>
    cases b with
    | nil => simpa using h
    | cons d b =>
      exfalso
      simp only [List.nil_append, List.cons_append, List.cons.injEq] at h
      exact hb (h.1 ▸ List.mem_cons_self d b)
  | cons c a ih =>
    cases b with
    | nil =>
      exfalso
      simp only [List.cons_append, List.nil_append, List.cons.injEq] at h
      exact ha (h.1 ▸ List.mem_cons_self c a)
    | cons d b =>
      simp only [List.cons_append, List.cons.injEq] at h
      have ha' : HashTok.sep ∉ a := fun hc => ha (List.mem_cons_of_mem _ hc)
      have hb' : HashTok.sep ∉ b := fun hc => hb (List.mem_cons_of_mem _ hc)
      rcases ih ha' hb' h.2 with ⟨h1, h2⟩
      exact ⟨by rw [h.1, h1], h2⟩

/-- The map feed is injective: two different key/value maps never feed the same
token stream, however their concatenated raw bytes relate. -/
theorem feedMap_injective {m₁ m₂ : List (String × String)}
    (h : feedMap m₁ = feedMap m₂) : m₁ = m₂ := by
  induction m₁ generalizing m₂ with
  | nil =>
    cases m₂ with
    | nil => rfl
    | cons kv rest =>
      exfalso
      have : HashTok.sep ∈ feedMap ([] : List (String × String)) := by
        rw [h]
        simp [feedMap]
      simp [feedMap] at this
  | cons kv₁ r₁ ih =>
    cases m₂ with
    | nil =>
      exfalso
      have : HashTok.sep ∈ feedMap ([] : List (String × String)) := by
        rw [← h]
        simp [feedMap]
      simp [feedMap] at this
    | cons kv₂ r₂ =>
      simp only [feedMap] at h
      rcases append_sep_inj (sep_not_mem_feedStr kv₁.1) (sep_not_mem_feedStr kv₂.1) h with ⟨hk, h'⟩
      rcases append_sep_inj (sep_not_mem_feedStr kv₁.2) (sep_not_mem_feedStr kv₂.2) h' with ⟨hv, hr⟩
      have : kv₁ = kv₂ :=
        Prod.ext (feedStr_injective hk) (feedStr_injective hv)
      rw [this, ih hr]

/-! ## The wrapper driver (src/wrappers/program_wrapper.cpp)

`program_wrapper_t::handle_command` sequences one invocation:
resolve args, read capabilities, fingerprint, look up, on miss optionally
terminate, run the tool, and insert on success.  The wrapper interface calls
and the cache are supplied as oracles; each may fail (throw), modelled with
`Except`.  The function additionally records the externally observable trace:
the `hasher_t::update` calls in order, the digests handed to the cache, the
number of `run_for_miss` invocations, the completed `cache_t::add` calls and
the bytes written to the driver's own stdout. -/

/-- Model of `expected_file_t`: target path plus the required flag. -/
structure ExpectedFile where
  path : String
  required : Bool
deriving DecidableEq

/-- Model of `sys::run_result_t`. -/
structure RunResult where
  std_out : String
  std_err : String
  return_code : Int
deriving DecidableEq

/-- Model of `cache_entry_t` as constructed by the driver on a miss. -/
structure CacheEntry where
  file_ids : List String
  compress_all : Bool
  std_out : String
  std_err : String
  return_code : Int
deriving DecidableEq

/-- Modelled from the spec: `string_list_t::join(" ", true)` (string_list.hpp
is not among the sources).  The spec calls this "the relevant-argument list
joined with a canonical separator"; the canonical separator is one space. -/
def join_canonical (args : List String) : String :=
  String.intercalate " " args

/-- Oracle for every call the driver makes to the wrapper and the cache.
Each `Except` value models a call that may throw. -/
structure WrapperOps where
  resolve_args : Except String Unit
  get_capabilities : Except String (List String)
  preprocess_source : Except String String
  get_relevant_arguments : Except String (List String)
  get_relevant_env_vars : Except String (List (String × String))
  get_program_id : Except String String
  get_build_files : Except String (List (String × ExpectedFile))
  run_for_miss : Except String RunResult
  cache_lookup : Digest → Except String (Option Int)
  cache_add : Digest → CacheEntry → Except String Unit
  file_exists : String → Bool

/-- The configuration bits `handle_command` reads. -/
structure DriverConfig where
  hard_links : Bool
  compress : Bool
  terminate_on_miss : Bool

/-- How one `handle_command` call ends: a return (the bool result together
with the `return_code` out-parameter), or process exit via `std::exit`. -/
inductive DriverOutcome where
  | ret (handled : Bool) (return_code : Int)
  | exited (code : Int)
deriving DecidableEq

/-- The result and observable trace of one `handle_command` call.
`stdout` is only what the driver itself prints (the terminate-on-miss
branch); hit-path replay of cached stdout happens inside `cache_t::lookup`,
which is outside these sources. -/
structure DriverResult where
  outcome : DriverOutcome
  hash_feeds : List (List HashTok)
  lookups : List Digest
  tool_runs : Nat
  adds : List (Digest × CacheEntry)
  stdout : String
deriving DecidableEq

/-- Shorthand for the failure result of the outer catch: `return_code` was set
to 1 on entry and `handle_command` returns `false`; the traces record what
happened before the exception. -/
def failedAt (feeds : List (List HashTok)) (lks : List Digest) (runs : Nat) : DriverResult :=
  { outcome := .ret false 1, hash_feeds := feeds, lookups := lks,
    tool_runs := runs, adds := [], stdout := "" }

/-- Shallow embedding of `program_wrapper_t::handle_command`
(program_wrapper.cpp lines 72-179). -/
def handle_command (w : WrapperOps) (cfg : DriverConfig) : DriverResult :=
  match w.resolve_args with
  | .error _ => failedAt [] [] 0
  | .ok _ =>
  match w.get_capabilities with
  | .error _ => failedAt [] [] 0
  | .ok _caps =>
  match w.preprocess_source with
  | .error _ => failedAt [] [] 0
  | .ok pre =>
  match w.get_relevant_arguments with
  | .error _ => failedAt [feedStr pre] [] 0
  | .ok args =>
  match w.get_relevant_env_vars with
  | .error _ => failedAt [feedStr pre, feedStr (join_canonical args)] [] 0
  | .ok env =>
  match w.get_program_id with
  | .error _ => failedAt [feedStr pre, feedStr (join_canonical args), feedMap env] [] 0
  | .ok pid =>
  let feeds := [feedStr pre, feedStr (join_canonical args), feedMap env, feedStr pid]
  let hash : Digest := ⟨feedStr pre ++ (feedStr (join_canonical args) ++ (feedMap env ++ feedStr pid))⟩
  match w.get_build_files with
  | .error _ => failedAt feeds [] 0
  | .ok expected_files =>
  match w.cache_lookup hash with
  | .error _ => failedAt feeds [hash] 0
  | .ok (some rc) =>
    { outcome := .ret true rc, hash_feeds := feeds, lookups := [hash],
      tool_runs := 0, adds := [], stdout := "" }
  | .ok none =>
  if cfg.terminate_on_miss then
    { outcome := .exited 0, hash_feeds := feeds, lookups := [hash], tool_runs := 0,
      adds := [],
      stdout := String.join (expected_files.map (fun f => f.2.path ++ "\n"))
        ++ "Terminate on a miss!\n" }
  else
  match w.run_for_miss with
  | .error _ => failedAt feeds [hash] 1
  | .ok result =>
  let file_ids := (expected_files.filter
      (fun f => f.2.required || w.file_exists f.2.path)).map Prod.fst
  if result.return_code = 0 then
    let entry : CacheEntry :=
      { file_ids := file_ids, compress_all := cfg.compress,
        std_out := result.std_out, std_err := result.std_err,
        return_code := result.return_code }
    match w.cache_add hash entry with
    | .error _ =>
      { outcome := .ret false 1, hash_feeds := feeds, lookups := [hash],
        tool_runs := 1, adds := [], stdout := "" }
    | .ok _ =>
      { outcome := .ret true result.return_code, hash_feeds := feeds,
        lookups := [hash], tool_runs := 1, adds := [(hash, entry)], stdout := "" }
  else
    { outcome := .ret true result.return_code, hash_feeds := feeds,
      lookups := [hash], tool_runs := 1, adds := [], stdout := "" }

/-- Apply the driver's completed cache inserts to a cache state (both tiers
are behind the single `cache_t::add` call). -/
def applyAdds (adds : List (Digest × CacheEntry)) (c : Digest → Option CacheEntry) :
    Digest → Option CacheEntry :=
  adds.foldl (fun c a => fun d => if d = a.1 then some a.2 else c d) c

/-- Claim C1: for every invocation the wrapper driver handles, the fingerprint
is built by feeding one digest exactly these inputs in this fixed order:
the preprocessed source, the relevant-argument list joined with the canonical
separator, the relevant-env-var map in sorted key order, and the program
identifier string; no other data is fed, and every digest handed to the cache
(lookup and insert) is the finalization of exactly that stream. -/
theorem claim_C1 (w : WrapperOps) (cfg : DriverConfig) (pre : String)
    (args : List String) (env : List (String × String)) (pid : String)
    (caps : List String)
    (h0 : w.resolve_args = .ok ()) (h1 : w.get_capabilities = .ok caps)
    (h2 : w.preprocess_source = .ok pre) (h3 : w.get_relevant_arguments = .ok args)
    (h4 : w.get_relevant_env_vars = .ok env) (h5 : w.get_program_id = .ok pid) :
    (handle_command w cfg).hash_feeds =
      [feedStr pre, feedStr (join_canonical args), feedMap env, feedStr pid] ∧
    (∀ d ∈ (handle_command w cfg).lookups,
      d = ⟨feedStr pre ++ (feedStr (join_canonical args) ++ (feedMap env ++ feedStr pid))⟩) ∧
    (∀ a ∈ (handle_command w cfg).adds,
      a.1 = ⟨feedStr pre ++ (feedStr (join_canonical args) ++ (feedMap env ++ feedStr pid))⟩) := by
  unfold handle_command
  simp only [h0, h1, h2, h3, h4, h5]
  rcases hb : w.get_build_files with e | ef
  · simp [failedAt]
  · rcases hl : w.cache_lookup _ with e | rc
    · simp [failedAt]
    · rcases rc with _ | rc
      · by_cases ht : cfg.terminate_on_miss
        · simp [ht]
        · simp only [ht, if_false]
          rcases hr : w.run_for_miss with e | r
          · simp [failedAt]
          · by_cases hrc : r.return_code = 0
            · simp only [hrc, if_true]
              rcases ha : w.cache_add _ _ with e | u
              · simp
              · simp
            · simp [hrc]
      · simp

/-- A concrete wrapper oracle: every call succeeds, the probe misses. -/
def wExample : WrapperOps :=
  { resolve_args := .ok ()
    get_capabilities := .ok ["hard_links"]
    preprocess_source := .ok "int x;"
    get_relevant_arguments := .ok ["cl", "/O2"]
    get_relevant_env_vars := .ok [("CL", "/W4")]
    get_program_id := .ok "1x64x64_19.29"
    get_build_files := .ok [("object", ⟨"a.obj", true⟩)]
    run_for_miss := .ok ⟨"", "", 0⟩
    cache_lookup := fun _ => .ok none
    cache_add := fun _ _ => .ok ()
    file_exists := fun _ => true }

/-- Configuration with terminate-on-miss off. -/
def cfgPlain : DriverConfig := { hard_links := true, compress := false, terminate_on_miss := false }

/-- Configuration with terminate-on-miss on. -/
def cfgTerm : DriverConfig := { hard_links := false, compress := false, terminate_on_miss := true }

theorem claim_C1_witness :
    (handle_command wExample cfgPlain).hash_feeds =
      [feedStr "int x;", feedStr (join_canonical ["cl", "/O2"]),
       feedMap [("CL", "/W4")], feedStr "1x64x64_19.29"] ∧
    (∀ d ∈ (handle_command wExample cfgPlain).lookups,
      d = ⟨feedStr "int x;" ++ (feedStr (join_canonical ["cl", "/O2"]) ++
        (feedMap [("CL", "/W4")] ++ feedStr "1x64x64_19.29"))⟩) ∧
    (∀ a ∈ (handle_command wExample cfgPlain).adds,
      a.1 = ⟨feedStr "int x;" ++ (feedStr (join_canonical ["cl", "/O2"]) ++
        (feedMap [("CL", "/W4")] ++ feedStr "1x64x64_19.29"))⟩) :=
  claim_C1 wExample cfgPlain "int x;" ["cl", "/O2"] [("CL", "/W4")] "1x64x64_19.29"
    ["hard_links"] rfl rfl rfl rfl rfl rfl

/-- Claim C2: if the tool run on a miss returns a non-zero exit code, the
driver performs no cache insert at all (local and remote both sit behind the
single `cache_t::add` call), so the cache state - and hence a subsequent
identical lookup - is unchanged. -/
theorem claim_C2 (w : WrapperOps) (cfg : DriverConfig) (r : RunResult)
    (hr : w.run_for_miss = .ok r) (hrc : r.return_code ≠ 0) :
    (handle_command w cfg).adds = [] ∧
    ∀ c : Digest → Option CacheEntry, applyAdds (handle_command w cfg).adds c = c := by
  have hadds : (handle_command w cfg).adds = [] := by
    unfold handle_command
    repeat' split <;> first | rfl | (try simp_all [failedAt])
  exact ⟨hadds, fun c => by rw [hadds]; rfl⟩

theorem claim_C2_witness :
    (handle_command { wExample with run_for_miss := .ok ⟨"", "error C2059", 2⟩ } cfgPlain).adds
      = [] ∧
    ∀ c : Digest → Option CacheEntry,
      applyAdds (handle_command { wExample with run_for_miss := .ok ⟨"", "error C2059", 2⟩ }
        cfgPlain).adds c = c :=
  claim_C2 { wExample with run_for_miss := .ok ⟨"", "error C2059", 2⟩ } cfgPlain
    ⟨"", "error C2059", 2⟩ rfl (by decide)

/-- Claim C3 counterexample: with terminate-on-miss configured and a missed
probe for one expected output `a.obj`, the process does exit with code zero,
spawns no tool and inserts nothing - but its stdout is NOT exactly the
expected output paths one per line: the code additionally prints the marker
line `Terminate on a miss!` (program_wrapper.cpp line 133). -/
theorem claim_C3_counterexample :
    cfgTerm.terminate_on_miss = true ∧
    (handle_command wExample cfgTerm).outcome = .exited 0 ∧
    (handle_command wExample cfgTerm).tool_runs = 0 ∧
    (handle_command wExample cfgTerm).adds = [] ∧
    (handle_command wExample cfgTerm).stdout = "a.obj\nTerminate on a miss!\n" ∧
    (handle_command wExample cfgTerm).stdout ≠ "a.obj\n" := by
  refine ⟨rfl, rfl, rfl, rfl, rfl, ?_⟩
  decide

/-- Claim C3 as amended: when terminate-on-miss mode is configured and the
probe misses, the process writes the expected output paths one per line
followed by the marker line `Terminate on a miss!` to stdout and exits with
code zero, without spawning the tool and without inserting a cache entry. -/
theorem claim_C3_amended (w : WrapperOps) (cfg : DriverConfig) (pre : String)
    (args : List String) (env : List (String × String)) (pid : String)
    (caps : List String) (files : List (String × ExpectedFile))
    (h0 : w.resolve_args = .ok ()) (h1 : w.get_capabilities = .ok caps)
    (h2 : w.preprocess_source = .ok pre) (h3 : w.get_relevant_arguments = .ok args)
    (h4 : w.get_relevant_env_vars = .ok env) (h5 : w.get_program_id = .ok pid)
    (h6 : w.get_build_files = .ok files)
    (h7 : ∀ d, w.cache_lookup d = .ok none)
    (ht : cfg.terminate_on_miss = true) :
    (handle_command w cfg).outcome = .exited 0 ∧
    (handle_command w cfg).stdout =
      String.join (files.map (fun f => f.2.path ++ "\n")) ++ "Terminate on a miss!\n" ∧
    (handle_command w cfg).tool_runs = 0 ∧
    (handle_command w cfg).adds = [] := by
  unfold handle_command
  simp only [h0, h1, h2, h3, h4, h5, h6, h7, ht]
  simp

theorem claim_C3_amended_witness :
    (handle_command wExample cfgTerm).outcome = .exited 0 ∧
    (handle_command wExample cfgTerm).stdout =
      String.join ([("object", (⟨"a.obj", true⟩ : ExpectedFile))].map
        (fun f => f.2.path ++ "\n")) ++ "Terminate on a miss!\n" ∧
    (handle_command wExample cfgTerm).tool_runs = 0 ∧
    (handle_command wExample cfgTerm).adds = [] :=
  claim_C3_amended wExample cfgTerm "int x;" ["cl", "/O2"] [("CL", "/W4")]
    "1x64x64_19.29" ["hard_links"] [("object", ⟨"a.obj", true⟩)]
    rfl rfl rfl rfl rfl rfl rfl (fun _ => rfl) rfl

/-- Claim C4: whenever `handle_command` returns `false` - which in the code
happens exactly when an exception escapes a step and reaches the outer catch -
the surfaced return code is 1 (set on entry and never overwritten on that
path), and the tool has been started at most once: the driver never re-runs
the tool after a failure. -/
theorem handle_command_outcome_cases (w : WrapperOps) (cfg : DriverConfig) :
    ((handle_command w cfg).outcome = .ret false 1 ∧ (handle_command w cfg).tool_runs ≤ 1) ∨
    (∃ rc, (handle_command w cfg).outcome = .ret true rc) ∨
    (handle_command w cfg).outcome = .exited 0 := by
  unfold handle_command
  repeat' split <;> (try simp [failedAt])

theorem claim_C4 (w : WrapperOps) (cfg : DriverConfig) (rc : Int)
    (h : (handle_command w cfg).outcome = .ret false rc) :
    rc = 1 ∧ (handle_command w cfg).tool_runs ≤ 1 := by
  rcases handle_command_outcome_cases w cfg with ⟨h1, h2⟩ | ⟨rc', h1⟩ | h1
  · rw [h] at h1
    simp only [DriverOutcome.ret.injEq] at h1
    exact ⟨h1.2, h2⟩
  · rw [h] at h1
    simp at h1
  · rw [h] at h1
    exact DriverOutcome.noConfusion h1

theorem claim_C4_witness :
    (1 : Int) = 1 ∧
    (handle_command { wExample with cache_add := fun _ _ => .error "disk full" }
      cfgPlain).tool_runs ≤ 1 :=
  claim_C4 { wExample with cache_add := fun _ _ => .error "disk full" } cfgPlain 1 rfl

/-! ## The remote store (src/cache/redis_cache_provider.cpp)

The hiredis transport is modelled by an oracle mapping each key to the reply
its command gets.  `cmdFailed` is `redisCommand` returning `nullptr` (a
transport-level command failure: the code logs, calls `disconnect()` and
throws); `status`, `str`, `err`, `nil` and `other` correspond to the
`REDIS_REPLY_*` types. -/

inductive RedisReply where
  | cmdFailed (errstr : String)
  | status
  | str (s : String)
  | err (s : String)
  | nil
  | other (t : Nat)

/-- The provider's connection state (`m_ctx`). -/
structure RedisCtx where
  connected : Bool
deriving DecidableEq

/-- Model of the namespaced key scheme `buildcache_<hash>_<file>`. -/
def remote_key_name (hash_str file : String) : String :=
  "buildcache" ++ "_" ++ hash_str ++ "_" ++ file

/-- Name of the cache entry file (`CACHE_ENTRY_FILE_NAME`). -/
def cacheEntryFileName : String := ".entry"

/-- Model of `redis_cache_provider_t::get_data`.  Returns the next connection
state and the data or the thrown error. -/
def get_data (oracle : String → RedisReply) (ctx : RedisCtx) (key : String) :
    RedisCtx × Except String String :=
  if ctx.connected then
    match oracle key with
    | .cmdFailed e => (⟨false⟩, .error ("Remote cache GET error: " ++ e))
    | .str s => (ctx, .ok s)
    | .err s => (ctx, .error ("Remote cache reply error: " ++ s))
    | .nil => (ctx, .error ("Remote cache miss: " ++ key))
    | .status => (ctx, .error "Unexpected remote cache reply type: status")
    | .other t => (ctx, .error ("Unexpected remote cache reply type: " ++ toString t))
  else (ctx, .error "Can't GET from a disconnected context")

/-- Model of `redis_cache_provider_t::set_data`, plus a flag telling whether
the SET took effect (a `status` reply). -/
def set_data (oracle : String → RedisReply) (ctx : RedisCtx) (key : String) :
    RedisCtx × Except String Unit :=
  if ctx.connected then
    match oracle key with
    | .cmdFailed e => (⟨false⟩, .error ("Remote cache GET error: " ++ e))
    | .status => (ctx, .ok ())
    | .err s => (ctx, .error ("Remote cache reply error: " ++ s))
    | .nil => (ctx, .error "Unexpected remote cache reply type: nil")
    | .str _ => (ctx, .error "Unexpected remote cache reply type: string")
    | .other t => (ctx, .error ("Unexpected remote cache reply type: " ++ toString t))
  else (ctx, .error "Can't SET to a disconnected context")

/-- Model of `cache_t::entry_t` as seen by the remote provider: the `files`
map (file id to source path) used on `add`, and the compression mode. -/
structure RemoteEntryFiles where
  files : List (String × String)
  compression_all : Bool

/-- A deserialized cache entry (`cache_t::entry_t` value side).  `cache.cpp`
is not among the sources, so serialization stays abstract; lookup just needs
the default-constructed empty entry. -/
structure RemoteEntry where
  file_ids : List String
  compression_all : Bool
  std_out : String
  std_err : String
  return_code : Int
deriving DecidableEq

/-- The default-constructed `cache_t::entry_t()` returned on any miss. -/
def RemoteEntry.empty : RemoteEntry :=
  { file_ids := [], compression_all := false, std_out := "", std_err := "", return_code := 0 }

/-- Model of `redis_cache_provider_t::lookup`: fetch the `.entry` key, try to
deserialize, and on ANY exception return the empty entry (a miss).  Also
returns the keys for which a GET command was issued (the fetch trace). -/
def redis_lookup (oracle : String → RedisReply)
    (deserialize : String → Except String RemoteEntry)
    (ctx : RedisCtx) (hash_str : String) : RedisCtx × RemoteEntry × List String :=
  let key := remote_key_name hash_str cacheEntryFileName
  let gets := if ctx.connected then [key] else []
  match get_data oracle ctx key with
  | (ctx', .ok data) =>
    match deserialize data with
    | .ok e => (ctx', e, gets)
    | .error _ => (ctx', RemoteEntry.empty, gets)
  | (ctx', .error _) => (ctx', RemoteEntry.empty, gets)

/-- The upload loop of `redis_cache_provider_t::add` (lines 135-151): for each
file read its data, optionally compress, and SET it under its key; the trace
collects each key whose SET succeeded, in order. -/
def redis_add_files (oracle : String → RedisReply)
    (read_file : String → Except String String) (compress_fn : String → String)
    (ctx : RedisCtx) (hash_str : String) (compression_all : Bool) :
    List (String × String) → RedisCtx × Except String Unit × List String
  | [] => (ctx, .ok (), [])
  | (file_id, source_path) :: rest =>
    match read_file source_path with
    | .error e => (ctx, .error e, [])
    | .ok raw =>
      let _data := if compression_all then compress_fn raw else raw
      let key := remote_key_name hash_str file_id
      match set_data oracle ctx key with
      | (ctx', .ok _) =>
        match redis_add_files oracle read_file compress_fn ctx' hash_str compression_all rest with
        | (ctx'', r, tr) => (ctx'', r, key :: tr)
      | (ctx', .error e) => (ctx', .error e, [])

/-- Model of `redis_cache_provider_t::add`: upload every artifact payload,
then store the serialized entry under the `.entry` key last. -/
def redis_add (oracle : String → RedisReply)
    (read_file : String → Except String String) (compress_fn : String → String)
    (ctx : RedisCtx) (hash_str : String) (entry : RemoteEntryFiles) :
    RedisCtx × Except String Unit × List String :=
  match redis_add_files oracle read_file compress_fn ctx hash_str
      entry.compression_all entry.files with
  | (ctx', .error e, tr) => (ctx', .error e, tr)
  | (ctx', .ok _, tr) =>
    let key := remote_key_name hash_str cacheEntryFileName
    match set_data oracle ctx' key with
    | (ctx'', .ok _) => (ctx'', .ok (), tr ++ [key])
    | (ctx'', .error e) => (ctx'', .error e, tr)

theorem remote_key_name_inj {h f₁ f₂ : String}
    (he : remote_key_name h f₁ = remote_key_name h f₂) : f₁ = f₂ := by
  unfold remote_key_name at he
  have hd := congrArg String.data he
  simp only [String.data_append, List.append_assoc] at hd
  have hdata : f₁.data = f₂.data :=
    List.append_cancel_left (List.append_cancel_left
      (List.append_cancel_left (List.append_cancel_left hd)))
  exact String.ext hdata

theorem redis_add_files_trace_sub (oracle : String → RedisReply)
    (read_file : String → Except String String) (compress_fn : String → String)
    (hash_str : String) (comp : Bool) :
    ∀ (files : List (String × String)) (ctx : RedisCtx),
      ∀ k ∈ (redis_add_files oracle read_file compress_fn ctx hash_str comp files).2.2,
        ∃ f ∈ files, k = remote_key_name hash_str f.1 := by
  intro files
  induction files with
  | nil => intro ctx k hk; simp [redis_add_files] at hk
  | cons f rest ih =>
    intro ctx k hk
    rcases f with ⟨fid, path⟩
    unfold redis_add_files at hk
    rcases hr : read_file path with e | raw
    · simp [hr] at hk
    · simp only [hr] at hk
      rcases hs : set_data oracle ctx (remote_key_name hash_str fid) with ⟨ctx', r⟩
      rcases r with e | u
      · simp [hs] at hk
      · simp only [hs] at hk
        rcases hrec : redis_add_files oracle read_file compress_fn ctx' hash_str comp rest
          with ⟨ctx'', r', tr'⟩
        simp only [hrec, List.mem_cons] at hk
        rcases hk with rfl | hk
        · exact ⟨(fid, path), List.mem_cons_self _ _, rfl⟩
        · rcases ih ctx' k (by rw [hrec]; exact hk) with ⟨f', hf', hkf⟩
          exact ⟨f', List.mem_cons_of_mem _ hf', hkf⟩

theorem redis_add_files_trace_ok (oracle : String → RedisReply)
    (read_file : String → Except String String) (compress_fn : String → String)
    (hash_str : String) (comp : Bool) :
    ∀ (files : List (String × String)) (ctx : RedisCtx),
      (redis_add_files oracle read_file compress_fn ctx hash_str comp files).2.1 = .ok () →
      (redis_add_files oracle read_file compress_fn ctx hash_str comp files).2.2 =
        files.map (fun f => remote_key_name hash_str f.1) := by
  intro files
  induction files with
  | nil => intro ctx _; rfl
  | cons f rest ih =>
    intro ctx hok
    rcases f with ⟨fid, path⟩
    unfold redis_add_files at hok ⊢
    rcases hr : read_file path with e | raw
    · simp [hr] at hok
    · simp only [hr] at hok ⊢
      rcases hs : set_data oracle ctx (remote_key_name hash_str fid) with ⟨ctx', r⟩
      rcases r with e | u
      · simp [hs] at hok
      · simp only [hs] at hok ⊢
        rcases hrec : redis_add_files oracle read_file compress_fn ctx' hash_str comp rest
          with ⟨ctx'', r', tr'⟩
        simp only [hrec] at hok ⊢
        have := ih ctx' (by rw [hrec]; exact hok)
        rw [hrec] at this
        simpa using this

theorem redis_lookup_gets (oracle : String → RedisReply)
    (deserialize : String → Except String RemoteEntry) (ctx : RedisCtx) (h : String) :
    (redis_lookup oracle deserialize ctx h).2.2 =
      if ctx.connected then [remote_key_name h cacheEntryFileName] else [] := by
  unfold redis_lookup
  rcases hg : get_data oracle ctx (remote_key_name h cacheEntryFileName) with ⟨ctx', r⟩
  rcases r with e | d
  · simp [hg]
  · rcases hd : deserialize d with e' | ent <;> simp [hg, hd]

/-- Claim C5: on remote insert every artifact payload is SET under its key
before the manifest (`.entry`) key is stored - so whenever the manifest key
appears in the performed-SET trace, the trace is exactly all artifact keys
followed by the manifest key - and remote lookup issues its GET for the
manifest key only. -/
theorem claim_C5 (oracle : String → RedisReply)
    (read_file : String → Except String String) (compress_fn : String → String)
    (deserialize : String → Except String RemoteEntry)
    (ctx : RedisCtx) (hash_str : String) (entry : RemoteEntryFiles)
    (hids : ∀ f ∈ entry.files, f.1 ≠ cacheEntryFileName) :
    (remote_key_name hash_str cacheEntryFileName ∈
        (redis_add oracle read_file compress_fn ctx hash_str entry).2.2 →
      (redis_add oracle read_file compress_fn ctx hash_str entry).2.2 =
        entry.files.map (fun f => remote_key_name hash_str f.1) ++
          [remote_key_name hash_str cacheEntryFileName]) ∧
    (redis_lookup oracle deserialize ctx hash_str).2.2 ⊆
      [remote_key_name hash_str cacheEntryFileName] := by
  constructor
  · intro hmem
    unfold redis_add at hmem ⊢
    rcases ha : redis_add_files oracle read_file compress_fn ctx hash_str
      entry.compression_all entry.files with ⟨ctx', r, tr⟩
    simp only [ha] at hmem ⊢
    rcases r with e | u
    · exfalso
      have hsub := redis_add_files_trace_sub oracle read_file compress_fn hash_str
        entry.compression_all entry.files ctx
      rw [ha] at hsub
      rcases hsub _ hmem with ⟨f, hf, hk⟩
      exact hids f hf (remote_key_name_inj hk).symm
    · have htr := redis_add_files_trace_ok oracle read_file compress_fn hash_str
        entry.compression_all entry.files ctx (by rw [ha])
      rw [ha] at htr
      simp only at htr
      rcases hm : set_data oracle ctx' (remote_key_name hash_str cacheEntryFileName)
        with ⟨ctx'', rm⟩
      rcases rm with e | u'
      · exfalso
        simp only [hm] at hmem
        rw [htr] at hmem
        rcases List.mem_map.mp hmem with ⟨f, hf, hk⟩
        exact hids f hf (remote_key_name_inj hk.symm).symm
      · simp only [hm]
        rw [htr]
  · rw [redis_lookup_gets]
    split
    · exact fun k hk => hk
    · exact fun k hk => absurd hk (List.not_mem_nil k)

theorem claim_C5_witness :
    (remote_key_name "0123" cacheEntryFileName ∈
        (redis_add (fun _ => .status) (fun _ => .ok "DATA") id ⟨true⟩ "0123"
          ⟨[("object", "/tmp/a.obj")], false⟩).2.2 →
      (redis_add (fun _ => .status) (fun _ => .ok "DATA") id ⟨true⟩ "0123"
          ⟨[("object", "/tmp/a.obj")], false⟩).2.2 =
        ([("object", "/tmp/a.obj")] : List (String × String)).map
          (fun f => remote_key_name "0123" f.1) ++
          [remote_key_name "0123" cacheEntryFileName]) ∧
    (redis_lookup (fun _ => .status) (fun _ => .error "bad entry") ⟨true⟩ "0123").2.2 ⊆
      [remote_key_name "0123" cacheEntryFileName] :=
  claim_C5 (fun _ => .status) (fun _ => .ok "DATA") id (fun _ => .error "bad entry")
    ⟨true⟩ "0123" ⟨[("object", "/tmp/a.obj")], false⟩ (by decide)

/-- Claim C6: every transient remote failure during lookup is a miss: a
transport-level command failure discards the connection and yields the empty
entry; an absent key (nil reply), an error or unexpected reply, a
disconnected context, and a reply that fails to deserialize all yield the
empty entry; `redis_lookup` is total, so the invocation never fails. -/
theorem claim_C6 (oracle : String → RedisReply)
    (deserialize : String → Except String RemoteEntry)
    (ctx : RedisCtx) (h : String) :
    (∀ e, oracle (remote_key_name h cacheEntryFileName) = .cmdFailed e →
      (redis_lookup oracle deserialize ctx h).1.connected = false ∧
      (redis_lookup oracle deserialize ctx h).2.1 = RemoteEntry.empty) ∧
    (oracle (remote_key_name h cacheEntryFileName) = .nil →
      (redis_lookup oracle deserialize ctx h).2.1 = RemoteEntry.empty) ∧
    (∀ s, oracle (remote_key_name h cacheEntryFileName) = .err s →
      (redis_lookup oracle deserialize ctx h).2.1 = RemoteEntry.empty) ∧
    (∀ t, oracle (remote_key_name h cacheEntryFileName) = .other t →
      (redis_lookup oracle deserialize ctx h).2.1 = RemoteEntry.empty) ∧
    (ctx.connected = false →
      (redis_lookup oracle deserialize ctx h).2.1 = RemoteEntry.empty) ∧
    (∀ d msg, oracle (remote_key_name h cacheEntryFileName) = .str d →
      deserialize d = .error msg →
      (redis_lookup oracle deserialize ctx h).2.1 = RemoteEntry.empty) := by
  by_cases hc : ctx.connected
  · refine ⟨fun e he => ?_, fun he => ?_, fun s he => ?_, fun t he => ?_,
      fun hf => ?_, fun d msg he hd => ?_⟩
    · constructor <;> simp [redis_lookup, get_data, hc, he]
    · simp [redis_lookup, get_data, hc, he]
    · simp [redis_lookup, get_data, hc, he]
    · simp [redis_lookup, get_data, hc, he]
    · rw [hf] at hc; exact Bool.noConfusion hc
    · simp [redis_lookup, get_data, hc, he, hd]
  · have hf : ctx.connected = false := by
      rcases hcc : ctx.connected with _ | _
      · rfl
      · exact absurd hcc hc
    refine ⟨fun e _ => ?_, fun _ => ?_, fun s _ => ?_, fun t _ => ?_,
      fun _ => ?_, fun d msg _ _ => ?_⟩ <;>
      simp [redis_lookup, get_data, hf]

theorem claim_C6_witness :
    ((redis_lookup (fun _ => .cmdFailed "Connection reset by peer")
        (fun _ => .error "unused") ⟨true⟩ "0123").1.connected = false ∧
      (redis_lookup (fun _ => .cmdFailed "Connection reset by peer")
        (fun _ => .error "unused") ⟨true⟩ "0123").2.1 = RemoteEntry.empty) ∧
    (redis_lookup (fun _ => .nil) (fun _ => .error "unused") ⟨true⟩ "0123").2.1
      = RemoteEntry.empty := by
  constructor
  · exact (claim_C6 (fun _ => .cmdFailed "Connection reset by peer")
      (fun _ => .error "unused") ⟨true⟩ "0123").1 "Connection reset by peer" rfl
  · exact (claim_C6 (fun _ => .nil) (fun _ => .error "unused") ⟨true⟩ "0123").2.1 rfl

/-! ## The general thread pool (src/base/thread_pool.hpp)

A completed task is represented by its result: `none` for a normal return,
`some e` for a thrown exception `e`.  Workers process tasks one at a time
(the queue pop and the exception store are mutex-protected in the code); a
run of the pool is the sequence of task results in completion order.  Each
completion decrements `m_pending_funcs` and, on a throw, overwrites
`m_exception` and sets `m_got_exception` (thread_pool.hpp lines 112-124). -/

structure PoolState where
  pending : Nat
  got_exception : Bool
  exception : Option String
deriving DecidableEq

/-- The pool state after `enqueue` was called once per task and nothing has
run yet: the pending counter equals the number of enqueued tasks. -/
def pool_enqueue_all (ts : List (Option String)) : PoolState :=
  { pending := ts.length, got_exception := false, exception := none }

/-- One task completion as seen by `thread_pool_t::worker`. -/
def worker_step (s : PoolState) (task : Option String) : PoolState :=
  match task with
  | some e => { pending := s.pending - 1, got_exception := true, exception := some e }
  | none => { s with pending := s.pending - 1 }

/-- All tasks processed, in completion order. -/
def run_tasks (s : PoolState) (ts : List (Option String)) : PoolState :=
  ts.foldl worker_step s

/-- Model of `throw_pending_exception` as called at the end of `wait()` (once the
pending counter has reached zero): clears the flag and rethrows the stored
exception, if any task had thrown. -/
def wait_result (s : PoolState) : PoolState × Except String Unit :=
  if s.got_exception then
    ({ s with got_exception := false }, .error (s.exception.getD ""))
  else (s, .ok ())

/-- The most recent failure of a completion-ordered list of task results. -/
def lastError (ts : List (Option String)) : Option String :=
  ts.foldl (fun acc t => match t with | some e => some e | none => acc) none

theorem run_tasks_spec (ts : List (Option String)) :
    ∀ (p : Nat) (g : Bool) (ex : Option String),
      run_tasks ⟨p + ts.length, g, ex⟩ ts =
        ⟨p, g || ts.any Option.isSome,
         ts.foldl (fun acc t => match t with | some e => some e | none => acc) ex⟩ := by
  induction ts with
  | nil => intro p g ex; simp [run_tasks]
  | cons t rest ih =>
    intro p g ex
    rcases t with _ | e
    · have : run_tasks ⟨p + (rest.length + 1), g, ex⟩ (none :: rest) =
          run_tasks ⟨p + rest.length, g, ex⟩ rest := by
        simp only [run_tasks, List.foldl_cons, worker_step]
        congr 1
      rw [List.length_cons, this, ih]
      simp [lastError]
    · have : run_tasks ⟨p + (rest.length + 1), g, ex⟩ (some e :: rest) =
          run_tasks ⟨p + rest.length, true, some e⟩ rest := by
        simp only [run_tasks, List.foldl_cons, worker_step]
        congr 1
      rw [List.length_cons, this, ih]
      simp [lastError]

theorem lastError_none_iff (ts : List (Option String)) :
    ∀ ex : Option String,
      ts.foldl (fun acc t => match t with | some e => some e | none => acc) ex = none ↔
      (ex = none ∧ ts.any Option.isSome = false) := by
  induction ts with
  | nil => intro ex; simp
  | cons t rest ih =>
    intro ex
    rcases t with _ | e
    · rw [List.foldl_cons]
      simp only [List.any_cons]
      rw [ih ex]
      simp
    · rw [List.foldl_cons]
      simp only [List.any_cons]
      rw [ih (some e)]
      simp

/-- Claim C7: once every enqueued task has completed the pending counter is
zero (this is the state `wait()` unblocks in), and `wait()` then rethrows
exactly the most recent task failure - earlier failures having been
overwritten - or throws nothing when no task failed. -/
theorem claim_C7 (ts : List (Option String)) :
    (run_tasks (pool_enqueue_all ts) ts).pending = 0 ∧
    (wait_result (run_tasks (pool_enqueue_all ts) ts)).2 =
      (match lastError ts with
       | some e => .error e
       | none => .ok ()) := by
  have hrun : run_tasks (pool_enqueue_all ts) ts =
      ⟨0, ts.any Option.isSome, lastError ts⟩ := by
    have := run_tasks_spec ts 0 false none
    simpa [pool_enqueue_all, lastError, Nat.zero_add] using this
  rw [hrun]
  refine ⟨rfl, ?_⟩
  rcases hl : lastError ts with _ | e
  · have hany : ts.any Option.isSome = false :=
      ((lastError_none_iff ts none).mp hl).2
    simp [wait_result, hany]
  · have hany : ts.any Option.isSome = true := by
      rcases hA : ts.any Option.isSome with _ | _
      · have := (lastError_none_iff ts none).mpr ⟨rfl, hA⟩
        rw [lastError] at hl
        rw [this] at hl
        exact Option.noConfusion hl
      · rfl
    simp [wait_result, hany, hl]

/-! ## The deferred-close worker (src/base/io_worker.cpp)

State: the worker thread count (`s_thread_pool.size()`), the terminate flag,
the FIFO fclose queue and the multiset of handles already closed (kept as a
list).  Events are the entry points plus a scheduler step `work` in which one
worker pops and closes the front handle (queue operations are under
`s_pool_mutex`).  `stop` drains: a worker keeps popping while the queue is
non-empty even after `s_terminate` is set (io_worker.cpp lines 54-62), so by
the time the threads join every queued handle has been closed; the model's
`stop` therefore moves the whole remaining queue to `closed`. -/

structure IoState where
  threads : Nat
  terminate : Bool
  queue : List Nat
  closed : List Nat
deriving DecidableEq

inductive IoEvent where
  | start (num_threads : Nat)
  | work
  | enqueue (f : Nat)
  | stop

/-- Initial state: no worker threads, empty queue. -/
def io_init : IoState := { threads := 0, terminate := false, queue := [], closed := [] }

/-- One event of the deferred-close worker model. -/
def io_step (s : IoState) : IoEvent → IoState
  | .start n => { s with threads := s.threads + n }
  | .work =>
    match s.queue with
    | [] => s
    | f :: rest => { s with queue := rest, closed := s.closed ++ [f] }
  | .enqueue f =>
    if s.threads ≠ 0 then { s with queue := s.queue ++ [f] }
    else { s with closed := s.closed ++ [f] }
  | .stop =>
    if s.threads ≠ 0 then
      { threads := 0, terminate := true, queue := [], closed := s.closed ++ s.queue }
    else s

def io_run (s : IoState) (evs : List IoEvent) : IoState :=
  evs.foldl io_step s

/-- The handles passed to `enqueue_fclose` over a run, in order. -/
def enqueued (evs : List IoEvent) : List Nat :=
  evs.filterMap (fun e => match e with | .enqueue f => some f | _ => none)

theorem io_run_invariant (evs : List IoEvent) :
    ∀ s : IoState, (s.threads = 0 → s.queue = []) →
      ((io_run s evs).threads = 0 → (io_run s evs).queue = []) ∧
      (io_run s evs).closed ++ (io_run s evs).queue = s.closed ++ s.queue ++ enqueued evs := by
  induction evs with
  | nil => intro s hinv; exact ⟨hinv, by simp [io_run, enqueued]⟩
  | cons ev rest ih =>
    intro s hinv
    have hstep : io_run s (ev :: rest) = io_run (io_step s ev) rest := by
      simp [io_run]
    rcases ev with n | _ | f | _
    · have hinv' : (io_step s (.start n)).threads = 0 → (io_step s (.start n)).queue = [] := by
        intro h0
        simp only [io_step] at h0 ⊢
        exact hinv (by omega)
      rcases ih (io_step s (.start n)) hinv' with ⟨h1, h2⟩
      rw [hstep]
      refine ⟨h1, ?_⟩
      rw [h2]
      simp [io_step, enqueued]
    · have hinv' : (io_step s .work).threads = 0 → (io_step s .work).queue = [] := by
        intro h0
        simp only [io_step] at h0 ⊢
        rcases hq : s.queue with _ | ⟨f, qrest⟩
        · simp [hq]
        · rw [hq] at h0
          simp only at h0
          have := hinv h0
          rw [hq] at this
          exact List.noConfusion this
      rcases ih (io_step s .work) hinv' with ⟨h1, h2⟩
      rw [hstep]
      refine ⟨h1, ?_⟩
      rw [h2]
      rcases hq : s.queue with _ | ⟨f, qrest⟩
      · simp [io_step, hq, enqueued]
      · simp [io_step, hq, enqueued]
    · have hinv' : (io_step s (.enqueue f)).threads = 0 → (io_step s (.enqueue f)).queue = [] := by
        intro h0
        by_cases ht : s.threads ≠ 0
        · simp only [io_step, if_pos ht] at h0
          exact absurd h0 ht
        · simp only [io_step, if_neg ht] at h0 ⊢
          exact hinv (by omega)
      rcases ih (io_step s (.enqueue f)) hinv' with ⟨h1, h2⟩
      rw [hstep]
      refine ⟨h1, ?_⟩
      rw [h2]
      by_cases ht : s.threads ≠ 0
      · simp [io_step, if_pos ht, enqueued]
      · have hq : s.queue = [] := hinv (by omega)
        simp [io_step, if_neg ht, hq, enqueued]
    · have hinv' : (io_step s .stop).threads = 0 → (io_step s .stop).queue = [] := by
        intro h0
        by_cases ht : s.threads ≠ 0
        · simp [io_step, if_pos ht]
        · simp only [io_step, if_neg ht] at h0 ⊢
          exact hinv (by omega)
      rcases ih (io_step s .stop) hinv' with ⟨h1, h2⟩
      rw [hstep]
      refine ⟨h1, ?_⟩
      rw [h2]
      by_cases ht : s.threads ≠ 0
      · simp [io_step, if_pos ht, enqueued]
      · simp [io_step, if_neg ht, enqueued]

/-- Claim C8: every handle handed to the deferred-close worker is closed
exactly once.  Over any event sequence, the closed handles plus the still
queued ones are exactly the enqueued handles in order (so nothing is closed
twice or dropped); once the worker pool is inactive - after `stop`, or if it
was never started - the queue is empty, so the closed handles are EXACTLY
the enqueued ones; and when the pool is not active, `enqueue_fclose` closes
the handle synchronously in the caller. -/
theorem claim_C8 (evs : List IoEvent) (s : IoState) (f : Nat)
    (hs : s.threads = 0) :
    ((io_run io_init evs).closed ++ (io_run io_init evs).queue = enqueued evs) ∧
    ((io_run io_init evs).threads = 0 → (io_run io_init evs).closed = enqueued evs) ∧
    ((io_run io_init evs).threads = 0 →
      ∀ g, ((io_run io_init evs).closed.count g = (enqueued evs).count g)) ∧
    ((io_step s (.enqueue f)).closed = s.closed ++ [f] ∧
      (io_step s (.enqueue f)).queue = s.queue) := by
  rcases io_run_invariant evs io_init (fun _ => rfl) with ⟨h1, h2⟩
  have hmain : (io_run io_init evs).closed ++ (io_run io_init evs).queue = enqueued evs := by
    rw [h2]
    simp [io_init]
  refine ⟨hmain, fun h0 => ?_, fun h0 g => ?_, ?_⟩
  · have hq := h1 h0
    rw [hq] at hmain
    simpa using hmain
  · have hq := h1 h0
    rw [hq] at hmain
    simp only [List.append_nil] at hmain
    rw [hmain]
  · have ht : ¬s.threads ≠ 0 := by omega
    constructor <;> simp [io_step, if_neg ht]

theorem claim_C8_witness :
    ((io_run io_init [.start 2, .enqueue 5, .work, .enqueue 6, .stop]).closed ++
        (io_run io_init [.start 2, .enqueue 5, .work, .enqueue 6, .stop]).queue =
      enqueued [.start 2, .enqueue 5, .work, .enqueue 6, .stop]) ∧
    ((io_run io_init [.start 2, .enqueue 5, .work, .enqueue 6, .stop]).threads = 0 →
      (io_run io_init [.start 2, .enqueue 5, .work, .enqueue 6, .stop]).closed =
        enqueued [.start 2, .enqueue 5, .work, .enqueue 6, .stop]) ∧
    ((io_run io_init [.start 2, .enqueue 5, .work, .enqueue 6, .stop]).threads = 0 →
      ∀ g, ((io_run io_init [.start 2, .enqueue 5, .work, .enqueue 6, .stop]).closed.count g =
        (enqueued [.start 2, .enqueue 5, .work, .enqueue 6, .stop]).count g)) ∧
    ((io_step io_init (.enqueue 7)).closed = io_init.closed ++ [7] ∧
      (io_step io_init (.enqueue 7)).queue = io_init.queue) :=
  claim_C8 [.start 2, .enqueue 5, .work, .enqueue 6, .stop] io_init 7 rfl

/-- Claim C9: hashing a key/value map feeds the pairs in the map's sorted-key
traversal order with an unambiguous separator between pair components, so
(i) the fingerprint does not depend on the order in which the pairs were
supplied when building the map, (ii) distinct maps always feed distinct
streams - in particular however their concatenated raw bytes relate - and
(iii) concretely, a-maps-to-1 with b-maps-to-2 and a-maps-to-1b with
b-maps-to-2 digest differently. -/
theorem claim_C9 :
    (∀ l₁ l₂ : List (String × String), (l₁.map Prod.fst).Nodup → l₁.Perm l₂ →
      Digest.mk (feedMap (mapOfList l₁)) = Digest.mk (feedMap (mapOfList l₂))) ∧
    (∀ m₁ m₂ : List (String × String), m₁ ≠ m₂ →
      Digest.mk (feedMap m₁) ≠ Digest.mk (feedMap m₂)) ∧
    Digest.mk (feedMap (mapOfList [("a", "1"), ("b", "2")])) ≠
      Digest.mk (feedMap (mapOfList [("a", "1b"), ("b", "2")])) := by
  refine ⟨?_, ?_, ?_⟩
  · intro l₁ l₂ hnd hp
    rw [mapOfList_perm_invariant hnd hp]
  · intro m₁ m₂ hne hd
    exact hne (feedMap_injective (congrArg Digest.toks hd))
  · intro hd
    have hinj := feedMap_injective (congrArg Digest.toks hd)
    have hba : ¬ ("b" : String) < "a" := by
      simp [String.lt_iff_toList_lt]
      decide
    have hbe : ("b" : String) ≠ "a" := by decide
    have h1 : mapOfList [("a", "1"), ("b", "2")] = [("a", "1"), ("b", "2")] := by
      simp [mapOfList, minsert, hba, hbe]
    have h2 : mapOfList [("a", "1b"), ("b", "2")] = [("a", "1b"), ("b", "2")] := by
      simp [mapOfList, minsert, hba, hbe]
    rw [h1, h2] at hinj
    exact absurd hinj (by decide)

theorem claim_C9_witness :
    Digest.mk (feedMap (mapOfList [("b", "2"), ("a", "1")])) =
      Digest.mk (feedMap (mapOfList [("a", "1"), ("b", "2")])) ∧
    Digest.mk (feedMap [("a", "1")]) ≠ Digest.mk (feedMap [("a", "2")]) :=
  ⟨claim_C9.1 [("b", "2"), ("a", "1")] [("a", "1"), ("b", "2")] (by decide)
      (List.Perm.swap ("a", "1") ("b", "2") []),
   claim_C9.2.1 [("a", "1")] [("a", "2")] (by decide)⟩

/-! ## The MSVC wrapper (src/wrappers/msvc_wrapper.cpp)

Helpers `arg_equals` / `arg_starts_with` (lines 61-71): an argument matches
when its first character is `/` or `-` and the remainder equals, resp. starts
with, the given flag text.  (`str[0]` on an empty `std::string` yields the
NUL terminator, which is not a flag character, so the empty string never
matches.)  The explicit size check of `arg_starts_with` is kept. -/

def is_flag_char (c : Char) : Bool :=
  c = '/' || c = '-'

def arg_equals (str sub : String) : Bool :=
  match str.toList with
  | [] => false
  | c :: rest => decide (1 ≤ sub.length) && is_flag_char c && decide (rest = sub.toList)

def arg_starts_with (str sub : String) : Bool :=
  match str.toList with
  | [] => false
  | c :: rest => decide (1 ≤ sub.length) && is_flag_char c &&
      decide (sub.length ≤ rest.length) && decide (rest.take sub.length = sub.toList)

/-- Model of `lower_case` (string_utils; `::tolower` per character, ASCII). -/
def lower_case (s : String) : String :=
  String.mk (s.toList.map Char.toLower)

/-- Modelled from the spec: `file::get_extension` (file_utils.cpp is not among
the sources): the file extension including the leading dot - the substring
from the final period - or the empty string when there is no period. -/
def get_extension (path : String) : String :=
  let l := path.toList
  if l.contains '.' then
    String.mk ('.' :: (l.reverse.takeWhile (fun c => !(c == '.'))).reverse)
  else ""

/-- Model of `is_object_file` (msvc_wrapper.cpp lines 56-59). -/
def is_object_file (file_ext : String) : Bool :=
  let ext := lower_case file_ext
  ext = ".obj" || ext = ".o"

/-- Modelled from the spec: `config::cache_accuracy_t` (configuration is not
among the sources); the spec names the accuracy modes DEFAULT and STRICT. -/
inductive Accuracy where
  | DEFAULT
  | STRICT
deriving DecidableEq

def Accuracy.rank : Accuracy → Nat
  | .DEFAULT => 0
  | .STRICT => 1

/-- Model of `make_preprocessor_cmd` (msvc_wrapper.cpp lines 83-124): drop `/c`,
`/Fo...`, `/C`, `/E`, `/EP`; detect debug (`/Z7 /Zi /ZI`) and coverage
(`/DEBUG /DEBUG:FULL /Zi /ZI`) flags; append `/EP` when line info is
inhibited, `/E` otherwise. -/
def make_preprocessor_cmd (acc : Accuracy) (args : List String) : List String :=
  let kept := args.filter (fun arg =>
    !(arg_equals arg "c" || arg_starts_with arg "Fo" || arg_equals arg "C" ||
      arg_equals arg "E" || arg_equals arg "EP"))
  let has_debug_symbols := args.any (fun a =>
    arg_equals a "Z7" || arg_equals a "Zi" || arg_equals a "ZI")
  let has_coverage_output := args.any (fun a =>
    arg_equals a "DEBUG" || arg_equals a "DEBUG:FULL" || arg_equals a "Zi" ||
    arg_equals a "ZI")
  let debug_symbols_required :=
    has_debug_symbols && decide (Accuracy.STRICT.rank ≤ acc.rank)
  let coverage_symbols_required :=
    has_coverage_output && decide (Accuracy.DEFAULT.rank ≤ acc.rank)
  let inhibit_line_info := !(debug_symbols_required || coverage_symbols_required)
  kept ++ [if inhibit_line_info then "/EP" else "/E"]

/-- The argument scan of `msvc_wrapper_t::preprocess_source` (lines 267-277):
accumulate the `/c` and `/Fo<objfile>` findings, throwing at once on
`/Zi` or `/ZI`. -/
def scan_args : List String → Bool → Bool → Except String (Bool × Bool)
  | [], c, fo => .ok (c, fo)
  | arg :: rest, c, fo =>
    if arg_equals arg "c" then scan_args rest true fo
    else if arg_starts_with arg "Fo" && is_object_file (get_extension arg) then
      scan_args rest c true
    else if arg_equals arg "Zi" || arg_equals arg "ZI" then
      .error "PDB generation is not supported."
    else scan_args rest c fo

/-- Model of `msvc_wrapper_t::preprocess_source` (lines 265-294).  `run` is
the `sys::run` oracle giving each spawned command's result. -/
def preprocess_source (args : List String) (acc : Accuracy)
    (run : List String → RunResult) : Except String String :=
  match scan_args args false false with
  | .error e => .error e
  | .ok (is_object_compilation, has_object_output) =>
    if !is_object_compilation || !has_object_output then
      .error "Unsupported complation command."
    else
      let result := run (make_preprocessor_cmd acc args)
      if result.return_code ≠ 0 then .error "Preprocessing command was unsuccessful."
      else .ok result.std_out

theorem arg_equals_toList {a sub : String} (h : arg_equals a sub = true) :
    ∃ c rest, a.toList = c :: rest ∧ is_flag_char c = true ∧ rest = sub.toList := by
  unfold arg_equals at h
  rcases ha : a.toList with _ | ⟨c, rest⟩
  · rw [ha] at h; exact Bool.noConfusion h
  · rw [ha] at h
    simp only [Bool.and_eq_true, decide_eq_true_eq] at h
    exact ⟨c, rest, rfl, h.1.2, h.2⟩

theorem arg_starts_with_toList {a sub : String} (h : arg_starts_with a sub = true) :
    ∃ c rest, a.toList = c :: rest ∧ is_flag_char c = true ∧
      sub.length ≤ rest.length ∧ rest.take sub.length = sub.toList := by
  unfold arg_starts_with at h
  rcases ha : a.toList with _ | ⟨c, rest⟩
  · rw [ha] at h; exact Bool.noConfusion h
  · rw [ha] at h
    simp only [Bool.and_eq_true, decide_eq_true_eq] at h
    exact ⟨c, rest, rfl, h.1.1.2, h.1.2, h.2⟩

theorem zi_imp_not_c {a : String}
    (h : (arg_equals a "Zi" || arg_equals a "ZI") = true) :
    arg_equals a "c" = false := by
  rcases hc : arg_equals a "c" with _ | _
  · rfl
  · exfalso
    rcases arg_equals_toList hc with ⟨c, rest, ha, _, hr⟩
    rcases Bool.or_eq_true_iff.mp h with hz | hz <;>
      rcases arg_equals_toList hz with ⟨c', rest', ha', _, hr'⟩ <;>
      rw [ha] at ha' <;>
      rcases List.cons.injEq .. ▸ ha' with ⟨_, hrr⟩
    · rw [hrr, hr'] at hr
      exact absurd hr (by decide)
    · rw [hrr, hr'] at hr
      exact absurd hr (by decide)

theorem c_imp_not_fo {a : String} (h : arg_equals a "c" = true) :
    arg_starts_with a "Fo" = false := by
  rcases hf : arg_starts_with a "Fo" with _ | _
  · rfl
  · exfalso
    rcases arg_equals_toList h with ⟨c, rest, ha, _, hr⟩
    rcases arg_starts_with_toList hf with ⟨c', rest', ha', _, hlen, _⟩
    rw [ha] at ha'
    rcases List.cons.injEq .. ▸ ha' with ⟨_, hrr⟩
    rw [← hrr, hr] at hlen
    exact absurd hlen (by decide)

theorem fo_imp_not_zi {a : String} (h : arg_starts_with a "Fo" = true) :
    (arg_equals a "Zi" || arg_equals a "ZI") = false := by
  rcases hz : (arg_equals a "Zi" || arg_equals a "ZI") with _ | _
  · rfl
  · exfalso
    rcases arg_starts_with_toList h with ⟨c, rest, ha, _, _, htake⟩
    rcases Bool.or_eq_true_iff.mp hz with he | he <;>
      rcases arg_equals_toList he with ⟨c', rest', ha', _, hr'⟩ <;>
      rw [ha] at ha' <;>
      rcases List.cons.injEq .. ▸ ha' with ⟨_, hrr⟩
    · rw [hrr, hr'] at htake
      exact absurd htake (by decide)
    · rw [hrr, hr'] at htake
      exact absurd htake (by decide)

theorem scan_args_spec (args : List String) : ∀ c fo : Bool,
    scan_args args c fo =
      if args.any (fun a => arg_equals a "Zi" || arg_equals a "ZI") then
        .error "PDB generation is not supported."
      else .ok (c || args.any (fun a => arg_equals a "c"),
        fo || args.any (fun a => arg_starts_with a "Fo" && is_object_file (get_extension a))) := by
  induction args with
  | nil => intro c fo; simp [scan_args]
  | cons a rest ih =>
    intro c fo
    by_cases h1 : arg_equals a "c" = true
    · have hz : (arg_equals a "Zi" || arg_equals a "ZI") = false := by
        rcases hzz : (arg_equals a "Zi" || arg_equals a "ZI") with _ | _
        · rfl
        · rw [zi_imp_not_c hzz] at h1
          exact Bool.noConfusion h1
      have hfo : arg_starts_with a "Fo" = false := c_imp_not_fo h1
      simp only [scan_args, h1, if_true]
      rw [ih true fo]
      simp [h1, hz, hfo]
    · simp only [Bool.not_eq_true] at h1
      by_cases h2 : (arg_starts_with a "Fo" && is_object_file (get_extension a)) = true
      · have hz : (arg_equals a "Zi" || arg_equals a "ZI") = false :=
          fo_imp_not_zi (Bool.and_eq_true_iff.mp h2).1
        simp only [scan_args, h1, Bool.false_eq_true, if_false, h2, if_true]
        rw [ih c true]
        simp [h1, h2, hz]
      · simp only [Bool.not_eq_true] at h2
        by_cases h3 : (arg_equals a "Zi" || arg_equals a "ZI") = true
        · simp only [scan_args, h1, Bool.false_eq_true, if_false, h2, h3, if_true]
          simp [h3]
        · simp only [Bool.not_eq_true] at h3
          simp only [scan_args, h1, Bool.false_eq_true, if_false, h2, h3]
          rw [ih c fo]
          simp [h1, h2, h3]

/-- Claim C10: `msvc_wrapper_t::preprocess_source` signals an unsupported
command (throws, forcing pass-through) exactly when the resolved arguments
request PDB generation (`/Zi` or `/ZI`), or do not contain both a `/c` flag
and an `/Fo` argument naming an object file, or when the spawned preprocessor
command returns a non-zero exit code; otherwise it returns the preprocessor's
stdout bytes. -/
theorem claim_C10 (args : List String) (acc : Accuracy)
    (run : List String → RunResult) :
    ((∃ e, preprocess_source args acc run = .error e) ↔
      (args.any (fun a => arg_equals a "Zi" || arg_equals a "ZI") = true ∨
       ¬(args.any (fun a => arg_equals a "c") = true ∧
         args.any (fun a => arg_starts_with a "Fo" &&
           is_object_file (get_extension a)) = true) ∨
       (run (make_preprocessor_cmd acc args)).return_code ≠ 0)) ∧
    (∀ s, preprocess_source args acc run = .ok s →
      s = (run (make_preprocessor_cmd acc args)).std_out) := by
  unfold preprocess_source
  rw [scan_args_spec]
  by_cases hz : args.any (fun a => arg_equals a "Zi" || arg_equals a "ZI") = true
  · simp [hz]
  · simp only [Bool.not_eq_true] at hz
    simp only [hz, Bool.false_eq_true, if_false, Bool.false_or]
    by_cases hc : args.any (fun a => arg_equals a "c") = true
    · by_cases hf : args.any (fun a => arg_starts_with a "Fo" &&
          is_object_file (get_extension a)) = true
      · by_cases hr : (run (make_preprocessor_cmd acc args)).return_code = 0
        · simp [hc, hf, hz, hr]
        · simp [hc, hf, hz, hr]
      · simp only [Bool.not_eq_true] at hf
        simp [hc, hf, hz]
    · simp only [Bool.not_eq_true] at hc
      simp [hc, hz]

theorem claim_C10_witness :
    "PREPROCESSED SOURCE" =
      ((fun _ => ({ std_out := "PREPROCESSED SOURCE", std_err := "", return_code := 0 }
          : RunResult))
        (make_preprocessor_cmd .DEFAULT ["cl", "/c", "/Foa.obj", "/O2"])).std_out :=
  (claim_C10 ["cl", "/c", "/Foa.obj", "/O2"] .DEFAULT
      (fun _ => { std_out := "PREPROCESSED SOURCE", std_err := "", return_code := 0 })).2
    "PREPROCESSED SOURCE" rfl
